import Mathlib

/-!
Verification of the frame-compositing pipeline of fake.py
(Linux-Fake-Background-Webcam): mask temporal smoothing, background-source
sequencing, sigmoid alpha blending, keep-aspect resizing, tiling, video
looping, and the on-demand consumer lifecycle state machine.

Machine images are modelled as dimensioned pixel functions; floating-point
arithmetic of numpy is modelled over ℚ (exact pipeline arithmetic) and ℝ
(the transcendental sigmoid).
-/

namespace FakeCamSpec

/-! ## Mask smoothing (FakeCam.compose_frame, lines 274-279)

`self.old_mask` is the persistent state; per frame the code runs
```
if self.old_mask is None or alpha == 1.:   self.old_mask = raw
elif alpha:                                self.old_mask = raw*alpha + self.old_mask*(1-alpha)
mask = self.old_mask
```
A mask is a single-channel float buffer, modelled as a ℚ-valued pixel map. -/

/-- A single-channel floating-point mask buffer, as a pixel map. -/
def Mask : Type := Nat → Nat → ℚ

/-- One smoothing step of `compose_frame`: `old` is `self.old_mask` before the
step, `raw` the freshly segmented mask; the result is the new `self.old_mask`
(which the code then uses as `mask`).  `alpha` is
`self.mask_exponential_average_alpha`.  The `elif alpha:` branch fires exactly
when `alpha ≠ 0` (Python truthiness of a float). -/
def maskUpdate (alpha : ℚ) (old : Option Mask) (raw : Mask) : Mask :=
  match old with
  | none => raw
  | some m =>
    if alpha = 1 then raw
    else if alpha = 0 then m
    else fun y x => raw y x * alpha + m y x * (1 - alpha)

/-! ## On-demand consumer lifecycle (FakeCam.run, lines 329-344)

Per inotify event, the code decrements `self.consumers` for each
CLOSE_NOWRITE/CLOSE_WRITE flag and increments it for each OPEN flag, then —
still inside the per-event loop — sets `paused=False` if `consumers > 0`,
else resets `consumers = 0` and sets `paused=True`. -/

/-- The inotify flags watched by `run` (CREATE | OPEN | CLOSE_NOWRITE |
CLOSE_WRITE). -/
inductive EventFlag where
  | create
  | openEv
  | closeNoWrite
  | closeWrite
deriving DecidableEq

/-- The driver state relevant to on-demand pausing. -/
structure LifecycleState where
  consumers : ℤ
  paused : Bool
deriving DecidableEq

/-- Initial on-demand state: `self.consumers = 0`, `self.paused = True`. -/
def initialLifecycle : LifecycleState := { consumers := 0, paused := true }

/-- Effect of one flag of an event on `self.consumers`. -/
def applyFlag (c : ℤ) (f : EventFlag) : ℤ :=
  match f with
  | .closeNoWrite => c - 1
  | .closeWrite => c - 1
  | .openEv => c + 1
  | .create => c

/-- Processing of one inotify event (its list of flags), including the
per-event pause/reset check. -/
def processEvent (s : LifecycleState) (ev : List EventFlag) : LifecycleState :=
  let c := ev.foldl applyFlag s.consumers
  if 0 < c then { consumers := c, paused := false }
  else { consumers := 0, paused := true }

/-- Draining a batch of events, one `processEvent` each. -/
def processEvents (s : LifecycleState) (evs : List (List EventFlag)) : LifecycleState :=
  evs.foldl processEvent s

/-- The lifecycle invariant: the consumer count is non-negative, and the
pipeline is paused exactly when there are no consumers. -/
def LifecycleInv (s : LifecycleState) : Prop :=
  0 ≤ s.consumers ∧ (s.paused = true ↔ s.consumers = 0)

instance (s : LifecycleState) : Decidable (LifecycleInv s) := by
  unfold LifecycleInv; infer_instance

/-! ## Background video cadence (FakeCam.load_images.next_frame, lines 220-236)

```
advrate = self.bg_video_fps / self.current_fps
if advrate < 1: adv = 1 if np.random.uniform() < advrate else 0
else:           adv = round(advrate)
```
`round` is Python's builtin: round-half-to-even. -/

/-- Python's builtin `round` on a rational: nearest integer, ties to even. -/
def pyRound (q : ℚ) : ℤ :=
  let f := ⌊q⌋
  let r := q - f
  if r < 1/2 then f
  else if 1/2 < r then f + 1
  else if f % 2 = 0 then f else f + 1

/-- The number of background-video frames advanced by one `next_frame` call,
given the video fps, the measured pipeline fps, and the uniform [0,1) draw
`u` of `np.random.uniform()`. -/
def nextAdvanceCount (bgFps currentFps : ℚ) (u : ℚ) : ℤ :=
  let advrate := bgFps / currentFps
  if advrate < 1 then (if u < advrate then 1 else 0)
  else pyRound advrate

/-! ## Images, resizing and tiling (FakeCam.resize_image / load_images)

An image is a height × width buffer of BGR pixels; we model the pixel payload
abstractly as ℕ and the buffer as a total pixel map (reads outside the
dimensions never occur in the verified paths). -/

/-- An image buffer: dimensions plus a pixel map. -/
structure Image where
  h : ℕ
  w : ℕ
  px : ℕ → ℕ → ℕ

/-- Modelled from the spec: `cv2.resize` is an external collaborator whose
contract (§6) is that the output has exactly the requested target dimensions;
pixels are taken from the source by nearest-neighbour sampling. -/
def cv2resize (img : Image) (W H : ℕ) : Image :=
  { h := H, w := W, px := fun y x => img.px (y * img.h / H) (x * img.w / W) }

/-- Numpy basic slicing `img[y0:y0+ny, x0:x0+nx, :]` with integer (possibly
out-of-range) bounds, for non-negative effective extents: indices are clipped
to the buffer. -/
def cropRegion (img : Image) (y0 ny x0 nx : ℤ) : Image :=
  let a := max y0 0
  let b := max (min (y0 + ny) img.h) a
  let c := max x0 0
  let d := max (min (x0 + nx) img.w) c
  { h := (b - a).toNat, w := (d - c).toNat,
    px := fun y x => img.px (y + a.toNat) (x + c.toNat) }

/-- Line 176: `scale=max(self.width/imgwidth, self.height/imgheight)`. -/
def kaScale (imgw imgh W H : ℕ) : ℚ :=
  max ((W : ℚ) / imgw) ((H : ℚ) / imgh)

/-- Line 177: `newimgwidth=int(np.floor(self.width/scale))`. -/
def kaNewW (imgw imgh W H : ℕ) : ℤ :=
  ⌊(W : ℚ) / kaScale imgw imgh W H⌋

/-- Line 178: `newimgheight=int(np.floor(self.height/scale))`. -/
def kaNewH (imgw imgh W H : ℕ) : ℤ :=
  ⌊(H : ℚ) / kaScale imgw imgh W H⌋

/-- Line 179: `ix0=int(np.floor(0.5*imgwidth-0.5*newimgwidth))`. -/
def kaIx0 (imgw imgh W H : ℕ) : ℤ :=
  ⌊(1/2 : ℚ) * imgw - (1/2 : ℚ) * kaNewW imgw imgh W H⌋

/-- Line 180: `iy0=int(np.floor(0.5*imgheight-0.5*newimgheight))`. -/
def kaIy0 (imgw imgh W H : ℕ) : ℤ :=
  ⌊(1/2 : ℚ) * imgh - (1/2 : ℚ) * kaNewH imgw imgh W H⌋

/-- The method `FakeCam.resize_image` (lines 170-185): raises on zero camera dimensions;
with `keep_aspect` it center-crops to the target aspect ratio before resizing,
otherwise it resizes directly. -/
def resize_image (img : Image) (W H : ℕ) (keepAspect : Bool) : Except String Image :=
  if W = 0 ∨ H = 0 then .error "Camera dimensions error"
  else if keepAspect then
    .ok (cv2resize
      (cropRegion img (kaIy0 img.w img.h W H) (kaNewH img.w img.h W H)
        (kaIx0 img.w img.h W H) (kaNewW img.w img.h W H)) W H)
  else .ok (cv2resize img W H)

/-- Line 202: `np.tile(background,(repy, repx, 1))`, the source replicated
`repy` times vertically and `repx` times horizontally. -/
def npTile (img : Image) (repy repx : ℕ) : Image :=
  { h := repy * img.h, w := repx * img.w,
    px := fun y x => img.px (y % img.h) (x % img.w) }

/-- Line 203: `background[0:self.height, 0:self.width]`. -/
def cropImage (img : Image) (H W : ℕ) : Image :=
  { h := min H img.h, w := min W img.w, px := img.px }

/-- The tiling branch of `load_images` (lines 196-203): a source strictly
larger than the target in both dimensions is resized down; otherwise it is
tiled `repy × repx` times and cropped to the target. -/
def loadBackgroundTiled (background : Image) (W H : ℕ) : Image :=
  let sizey := background.h
  let sizex := background.w
  if sizex > W ∧ sizey > H then cv2resize background W H
  else
    let repx := (W - 1) / sizex + 1
    let repy := (H - 1) / sizey + 1
    cropImage (npTile background repy repx) H W

/-! ## Background video looping (FakeCam.load_images.read_frame, lines 213-219)

```
ret, frame = background_video.read()
if not ret:
    background_video.set(cv2.CAP_PROP_POS_FRAMES, 0)
    ret, frame = background_video.read()
    assert ret
return self.resize_image(frame, self.background_keep_aspect)
```
The video is modelled as its frame list plus a playback position; `read`
returns the frame at the position and advances, or fails past the end. -/

/-- A `cv2.VideoCapture` on a finite file: its decoded frames and the current
`CAP_PROP_POS_FRAMES` position. -/
structure Video where
  frames : List Image
  pos : ℕ

/-- The call `background_video.read()`: returns the frame at the current position and
advances, or signals failure at end of stream. -/
def videoRead (v : Video) : Option Image × Video :=
  match v.frames[v.pos]? with
  | some f => (some f, { v with pos := v.pos + 1 })
  | none => (none, v)

/-- The inner function `read_frame` (lines 213-219): on a failed read, rewind to frame 0 and
retry; a failure after rewind is fatal (`assert ret`); the obtained frame is
resized like the static background. -/
def read_frame (W H : ℕ) (keepAspect : Bool) (v : Video) : Except String (Image × Video) :=
  match videoRead v with
  | (some frame, v') => (resize_image frame W H keepAspect).map (fun i => (i, v'))
  | (none, _) =>
    let v0 : Video := { frames := v.frames, pos := 0 }
    match videoRead v0 with
    | (some frame, v') => (resize_image frame W H keepAspect).map (fun i => (i, v'))
    | (none, _) => .error "cannot read frame"

/-! ## Sigmoid alpha blending (sigmoid, lines 448-452; compose_frame, 296-300)

```
def sigmoid(x, a=5., b=-10.):
    z = np.exp(a + b * x)
    sig = 1 / (1 + z)
for c in range(frame.shape[2]):
    frame[:,:,c] = frame[:,:,c] * sigmoid_mask + background_frame[:,:,c] * (1 - sigmoid_mask)
```
Pixel channels and masks are modelled over ℝ. -/

/-- The function `sigmoid(x)` with the default a=5., b=-10.: `1 / (1 + exp(5 - 10x))`. -/
noncomputable def sigmoid (x : ℝ) : ℝ :=
  let z := Real.exp (5 + (-10) * x)
  1 / (1 + z)

/-- The background-replacement blend of `compose_frame` on one channel of one
pixel: live channel value, background channel value, mask value. -/
noncomputable def composeChannel (live background m : ℝ) : ℝ :=
  live * sigmoid m + background * (1 - sigmoid m)

/-- The full background-replacement pass (lines 297-300), pointwise over a
frame of channel maps: `frame y x c` is channel `c` of pixel `(y,x)`. -/
noncomputable def composeFrame (frame backgroundFrame : ℕ → ℕ → ℕ → ℝ)
    (mask : ℕ → ℕ → ℝ) : ℕ → ℕ → ℕ → ℝ :=
  fun y x c => composeChannel (frame y x c) (backgroundFrame y x c) (mask y x)

/-! ## Concrete fixtures (used to instantiate theorems with hypotheses) -/

/-- A 2×3 test image with distinct pixel values. -/
def tileTestImg : Image := { h := 2, w := 3, px := fun y x => 10 * y + x }

/-- A 3×4 test image. -/
def kaTestImg : Image := { h := 3, w := 4, px := fun _ _ => 7 }

/-- A 2×2 test frame image for the video loop. -/
def loopTestImg : Image := { h := 2, w := 2, px := fun _ _ => 9 }

/-- A one-frame video positioned past its end. -/
def loopTestVideo : Video := { frames := [loopTestImg], pos := 1 }

/-- An empty (corrupt) video. -/
def emptyTestVideo : Video := { frames := [], pos := 0 }

/-! ## Theorems -/

/-- Processing one event re-establishes the lifecycle invariant from any state. -/
lemma processEvent_inv (s : LifecycleState) (ev : List EventFlag) :
    LifecycleInv (processEvent s ev) := by
  unfold processEvent LifecycleInv
  by_cases h : 0 < ev.foldl applyFlag s.consumers
  · simp only [h, if_pos]
    exact ⟨le_of_lt h, by simp [Ne.symm (ne_of_lt h)]⟩
  · simp only [h, if_neg]
    exact ⟨le_refl 0, by simp⟩

/-- Draining any batch of events from an invariant state lands in an
invariant state. -/
lemma processEvents_inv (s : LifecycleState) (evs : List (List EventFlag))
    (hs : LifecycleInv s) : LifecycleInv (processEvents s evs) := by
  induction evs generalizing s with
  | nil => exact hs
  | cons e es ih => exact ih (processEvent s e) (processEvent_inv s e)

/-- C2: with α = 1, one smoothing step returns exactly the latest raw mask,
whatever was stored before. -/
theorem maskUpdate_alpha_one (old : Option Mask) (raw : Mask) :
    maskUpdate 1 old raw = raw := by
  cases old with
  | none => rfl
  | some m => simp [maskUpdate]

/-- C3: with α = 0, the first smoothing step stores the raw mask, and every
later step ignores the new raw mask and keeps (and returns) the stored one. -/
theorem maskUpdate_alpha_zero (m raw : Mask) :
    maskUpdate 0 none raw = raw ∧ maskUpdate 0 (some m) raw = m := by
  refine ⟨rfl, ?_⟩
  simp [maskUpdate]

/-- C4: one `next_frame` call advances by Python-`round`(advance_rate) frames
when advance_rate ≥ 1 (in particular exactly 3 frames at bg_fps=30,
current_fps=10), and by one frame exactly when the uniform draw falls below
advance_rate when advance_rate < 1. -/
theorem video_advance (bgFps currentFps u : ℚ) :
    (1 ≤ bgFps / currentFps →
      nextAdvanceCount bgFps currentFps u = pyRound (bgFps / currentFps)) ∧
    (bgFps / currentFps < 1 →
      nextAdvanceCount bgFps currentFps u =
        if u < bgFps / currentFps then 1 else 0) ∧
    nextAdvanceCount 30 10 u = 3 := by
  refine ⟨fun h => ?_, fun h => ?_, ?_⟩
  · simp [nextAdvanceCount, not_lt.mpr h]
  · simp [nextAdvanceCount, h]
  · have h30 : (30 : ℚ) / 10 = 3 := by norm_num
    simp only [nextAdvanceCount, h30]
    norm_num [pyRound]

/-- Witness for C4 at concrete inputs: bg_fps=30, current_fps=10 takes the
deterministic branch; bg_fps=10, current_fps=30 takes the stochastic one. -/
theorem video_advance_witness :
    nextAdvanceCount 30 10 (1/2) = pyRound (30/10) ∧
    nextAdvanceCount 10 30 (1/4) =
      (if (1/4 : ℚ) < 10/30 then 1 else 0) :=
  ⟨(video_advance 30 10 (1/2)).1 (by norm_num),
   (video_advance 10 30 (1/4)).2.1 (by norm_num)⟩

/-- C5: every state reachable by event processing from the initial on-demand
state has a non-negative consumer count and is paused exactly when the count
is zero; an open event from the initial state yields one consumer and Active,
a close-without-write event then yields zero consumers and Paused, and a
second close event without a matching open leaves the count at zero. -/
theorem ondemand_lifecycle :
    (∀ evs : List (List EventFlag),
      LifecycleInv (processEvents initialLifecycle evs)) ∧
    processEvent initialLifecycle [.openEv] =
      { consumers := 1, paused := false } ∧
    processEvent { consumers := 1, paused := false } [.closeNoWrite] =
      { consumers := 0, paused := true } ∧
    processEvent { consumers := 0, paused := true } [.closeNoWrite] =
      { consumers := 0, paused := true } := by
  refine ⟨fun evs => processEvents_inv _ evs (by decide), by decide, by decide, by decide⟩

/-- Taking `(a-1)/s + 1` replications of a strip of `s` pixels covers `a` pixels. -/
lemma le_tile_cover (a s : ℕ) (hs : 0 < s) : a ≤ ((a - 1) / s + 1) * s := by
  rcases Nat.eq_zero_or_pos a with h | h
  · simp [h]
  · have h1 := Nat.div_add_mod (a - 1) s
    have h2 := Nat.mod_lt (a - 1) hs
    have h3 : ((a - 1) / s + 1) * s = s * ((a - 1) / s) + s := by ring
    omega

/-- C7: the tiled static background has exactly the target dimensions, and in
the tiling branch every output pixel — bottom/right edges included — is the
source pixel at the coordinates reduced modulo the source size. -/
theorem tiled_background (bg : Image) (W H : ℕ) (hw : 0 < bg.w) (hh : 0 < bg.h) :
    ((loadBackgroundTiled bg W H).h = H ∧ (loadBackgroundTiled bg W H).w = W) ∧
    (¬(bg.w > W ∧ bg.h > H) → ∀ y x, y < H → x < W →
      (loadBackgroundTiled bg W H).px y x = bg.px (y % bg.h) (x % bg.w)) := by
  by_cases hc : bg.w > W ∧ bg.h > H
  · exact ⟨⟨by simp [loadBackgroundTiled, hc, cv2resize],
           by simp [loadBackgroundTiled, hc, cv2resize]⟩,
          fun hn => absurd hc hn⟩
  · have hht : H ≤ ((H - 1) / bg.h + 1) * bg.h := le_tile_cover H bg.h hh
    have hwt : W ≤ ((W - 1) / bg.w + 1) * bg.w := le_tile_cover W bg.w hw
    refine ⟨⟨?_, ?_⟩, fun _ y x hy hx => ?_⟩
    · simp only [loadBackgroundTiled, hc, if_false, cropImage, npTile]
      omega
    · simp only [loadBackgroundTiled, hc, if_false, cropImage, npTile]
      omega
    · simp [loadBackgroundTiled, hc, cropImage, npTile]

/-- Witness for C7 on a 2×3 source tiled into a 4×5 target. -/
theorem tiled_background_witness :
    ((loadBackgroundTiled tileTestImg 5 4).h = 4 ∧
      (loadBackgroundTiled tileTestImg 5 4).w = 5) ∧
    (¬(tileTestImg.w > 5 ∧ tileTestImg.h > 4) → ∀ y x, y < 4 → x < 5 →
      (loadBackgroundTiled tileTestImg 5 4).px y x =
        tileTestImg.px (y % tileTestImg.h) (x % tileTestImg.w)) :=
  tiled_background tileTestImg 5 4 (by decide) (by decide)

/-- The keep-aspect scale is positive for positive dimensions. -/
lemma kaScale_pos (imgw imgh W H : ℕ) (himgw : 0 < imgw) (hW : 0 < W) :
    0 < kaScale imgw imgh W H := by
  have : (0 : ℚ) < (W : ℚ) / imgw := by positivity
  exact lt_of_lt_of_le this (le_max_left _ _)

/-- The cropped width `floor(W / scale)` is non-negative. -/
lemma kaNewW_nonneg (imgw imgh W H : ℕ) (himgw : 0 < imgw) (hW : 0 < W) :
    0 ≤ kaNewW imgw imgh W H := by
  have hs := kaScale_pos imgw imgh W H himgw hW
  exact Int.floor_nonneg.mpr (div_nonneg (by positivity) hs.le)

/-- The cropped height `floor(H / scale)` is non-negative. -/
lemma kaNewH_nonneg (imgw imgh W H : ℕ) (himgw : 0 < imgw) (hW : 0 < W) :
    0 ≤ kaNewH imgw imgh W H := by
  have hs := kaScale_pos imgw imgh W H himgw hW
  exact Int.floor_nonneg.mpr (div_nonneg (by positivity) hs.le)

/-- Since `scale ≥ W/imgw`, the cropped width never exceeds the source width. -/
lemma kaNewW_le (imgw imgh W H : ℕ) (himgw : 0 < imgw) (hW : 0 < W) :
    kaNewW imgw imgh W H ≤ (imgw : ℤ) := by
  have hs := kaScale_pos imgw imgh W H himgw hW
  have h2 : (W : ℚ) / imgw ≤ kaScale imgw imgh W H := le_max_left _ _
  have h1 : (W : ℚ) / kaScale imgw imgh W H ≤ (imgw : ℚ) := by
    rw [div_le_iff₀ hs]
    calc (W : ℚ) = imgw * ((W : ℚ) / imgw) := by field_simp
    _ ≤ imgw * kaScale imgw imgh W H :=
        mul_le_mul_of_nonneg_left h2 (by positivity)
  calc kaNewW imgw imgh W H ≤ ⌊(imgw : ℚ)⌋ := Int.floor_le_floor h1
  _ = (imgw : ℤ) := Int.floor_natCast imgw

/-- Since `scale ≥ H/imgh`, the cropped height never exceeds the source
height. -/
lemma kaNewH_le (imgw imgh W H : ℕ) (himgh : 0 < imgh) (hH : 0 < H) :
    kaNewH imgw imgh W H ≤ (imgh : ℤ) := by
  have hs : 0 < kaScale imgw imgh W H := by
    have : (0 : ℚ) < (H : ℚ) / imgh := by positivity
    exact lt_of_lt_of_le this (le_max_right _ _)
  have h2 : (H : ℚ) / imgh ≤ kaScale imgw imgh W H := le_max_right _ _
  have h1 : (H : ℚ) / kaScale imgw imgh W H ≤ (imgh : ℚ) := by
    rw [div_le_iff₀ hs]
    calc (H : ℚ) = imgh * ((H : ℚ) / imgh) := by field_simp
    _ ≤ imgh * kaScale imgw imgh W H :=
        mul_le_mul_of_nonneg_left h2 (by positivity)
  calc kaNewH imgw imgh W H ≤ ⌊(imgh : ℚ)⌋ := Int.floor_le_floor h1
  _ = (imgh : ℤ) := Int.floor_natCast imgh

/-- Bounds for a floored half-difference offset `⌊m/2 - v/2⌋`: it is
non-negative and the two margins it induces differ by at most one. -/
lemma center_floor_bounds (m : ℕ) (v : ℤ) (_h0 : 0 ≤ v) (hle : v ≤ (m : ℤ)) :
    0 ≤ ⌊(1/2 : ℚ) * m - (1/2 : ℚ) * v⌋ ∧
    2 * ⌊(1/2 : ℚ) * m - (1/2 : ℚ) * v⌋ ≤ (m : ℤ) - v ∧
    (m : ℤ) - v ≤ 2 * ⌊(1/2 : ℚ) * m - (1/2 : ℚ) * v⌋ + 1 := by
  have hfl : (⌊(1/2 : ℚ) * m - (1/2 : ℚ) * v⌋ : ℚ) ≤ (1/2 : ℚ) * m - (1/2 : ℚ) * v :=
    Int.floor_le _
  have hfu : (1/2 : ℚ) * m - (1/2 : ℚ) * v < ⌊(1/2 : ℚ) * m - (1/2 : ℚ) * v⌋ + 1 :=
    Int.lt_floor_add_one _
  have hcast : ((v : ℚ)) ≤ ((m : ℚ)) := by exact_mod_cast hle
  refine ⟨Int.floor_nonneg.mpr (by linarith), ?_, ?_⟩
  · have h2 : ((2 * ⌊(1/2 : ℚ) * m - (1/2 : ℚ) * v⌋ : ℤ) : ℚ) ≤ (((m : ℤ) - v : ℤ) : ℚ) := by
      push_cast
      linarith
    exact_mod_cast h2
  · have h2 : (((m : ℤ) - v : ℤ) : ℚ) < ((2 * ⌊(1/2 : ℚ) * m - (1/2 : ℚ) * v⌋ + 2 : ℤ) : ℚ) := by
      push_cast
      linarith
    have h3 : (m : ℤ) - v < 2 * ⌊(1/2 : ℚ) * m - (1/2 : ℚ) * v⌋ + 2 := by
      exact_mod_cast h2
    omega

/-- C10: the keep-aspect crop region lies entirely within the source image:
both offsets are non-negative and offset plus cropped size stays within the
source dimension on each axis. -/
theorem keep_aspect_crop_in_bounds (imgw imgh W H : ℕ)
    (himgw : 0 < imgw) (himgh : 0 < imgh) (hW : 0 < W) (hH : 0 < H) :
    0 ≤ kaIx0 imgw imgh W H ∧ 0 ≤ kaIy0 imgw imgh W H ∧
    kaIx0 imgw imgh W H + kaNewW imgw imgh W H ≤ (imgw : ℤ) ∧
    kaIy0 imgw imgh W H + kaNewH imgw imgh W H ≤ (imgh : ℤ) := by
  have hx := center_floor_bounds imgw (kaNewW imgw imgh W H)
    (kaNewW_nonneg imgw imgh W H himgw hW) (kaNewW_le imgw imgh W H himgw hW)
  have hy := center_floor_bounds imgh (kaNewH imgw imgh W H)
    (kaNewH_nonneg imgw imgh W H himgw hW) (kaNewH_le imgw imgh W H himgh hH)
  unfold kaIx0 kaIy0
  omega

/-- Witness for C10 on a 4-wide, 3-high source and 2×2 target. -/
theorem keep_aspect_crop_in_bounds_witness :
    0 ≤ kaIx0 4 3 2 2 ∧ 0 ≤ kaIy0 4 3 2 2 ∧
    kaIx0 4 3 2 2 + kaNewW 4 3 2 2 ≤ (4 : ℤ) ∧
    kaIy0 4 3 2 2 + kaNewH 4 3 2 2 ≤ (3 : ℤ) :=
  keep_aspect_crop_in_bounds 4 3 2 2 (by decide) (by decide) (by decide) (by decide)

/-- C8: keep-aspect resizing succeeds on positive dimensions with an output
of exactly the target dimensions, and the crop offsets centre the region —
left and right (top and bottom) margins differ by at most one pixel, floor
tie-break. -/
theorem keep_aspect_resize (img : Image) (W H : ℕ)
    (himgw : 0 < img.w) (himgh : 0 < img.h) (hW : 0 < W) (hH : 0 < H) :
    (∃ out, resize_image img W H true = .ok out ∧ out.h = H ∧ out.w = W) ∧
    2 * kaIx0 img.w img.h W H ≤ (img.w : ℤ) - kaNewW img.w img.h W H ∧
    (img.w : ℤ) - kaNewW img.w img.h W H ≤ 2 * kaIx0 img.w img.h W H + 1 ∧
    2 * kaIy0 img.w img.h W H ≤ (img.h : ℤ) - kaNewH img.w img.h W H ∧
    (img.h : ℤ) - kaNewH img.w img.h W H ≤ 2 * kaIy0 img.w img.h W H + 1 := by
  have hx := center_floor_bounds img.w (kaNewW img.w img.h W H)
    (kaNewW_nonneg img.w img.h W H himgw hW) (kaNewW_le img.w img.h W H himgw hW)
  have hy := center_floor_bounds img.h (kaNewH img.w img.h W H)
    (kaNewH_nonneg img.w img.h W H himgw hW) (kaNewH_le img.w img.h W H himgh hH)
  have hok : resize_image img W H true =
      .ok (cv2resize
        (cropRegion img (kaIy0 img.w img.h W H) (kaNewH img.w img.h W H)
          (kaIx0 img.w img.h W H) (kaNewW img.w img.h W H)) W H) := by
    simp [resize_image, Nat.pos_iff_ne_zero.mp hW, Nat.pos_iff_ne_zero.mp hH]
  exact ⟨⟨_, hok, rfl, rfl⟩, hx.2.1, hx.2.2, hy.2.1, hy.2.2⟩

/-- Witness for C8 on a 4-wide, 3-high source and 2×2 target. -/
theorem keep_aspect_resize_witness :
    (∃ out, resize_image kaTestImg 2 2 true = .ok out ∧ out.h = 2 ∧ out.w = 2) ∧
    2 * kaIx0 kaTestImg.w kaTestImg.h 2 2 ≤
      (kaTestImg.w : ℤ) - kaNewW kaTestImg.w kaTestImg.h 2 2 ∧
    (kaTestImg.w : ℤ) - kaNewW kaTestImg.w kaTestImg.h 2 2 ≤
      2 * kaIx0 kaTestImg.w kaTestImg.h 2 2 + 1 ∧
    2 * kaIy0 kaTestImg.w kaTestImg.h 2 2 ≤
      (kaTestImg.h : ℤ) - kaNewH kaTestImg.w kaTestImg.h 2 2 ∧
    (kaTestImg.h : ℤ) - kaNewH kaTestImg.w kaTestImg.h 2 2 ≤
      2 * kaIy0 kaTestImg.w kaTestImg.h 2 2 + 1 :=
  keep_aspect_resize kaTestImg 2 2 (by decide) (by decide) (by decide) (by decide)

/-- C9: when the read of the background video fails (position past the end),
`read_frame` rewinds to the first frame and reads again: on an empty
(corrupt) source this is a fatal error, otherwise the frame obtained after
the rewind — the first frame, resized — is returned. -/
theorem video_loop (v : Video) (W H : ℕ) (ka : Bool)
    (hpos : v.frames.length ≤ v.pos) :
    (v.frames = [] → read_frame W H ka v = .error "cannot read frame") ∧
    (∀ f rest, v.frames = f :: rest →
      read_frame W H ka v =
        (resize_image f W H ka).map
          (fun i => (i, ({ frames := v.frames, pos := 1 } : Video)))) := by
  have hnone : v.frames[v.pos]? = none := by
    rw [List.getElem?_eq_none_iff]
    exact hpos
  constructor
  · intro hemp
    simp [read_frame, videoRead, hnone, hemp]
  · intro f rest hcons
    have h0 : v.frames[(0 : ℕ)]? = some f := by
      rw [hcons]
      simp
    simp [read_frame, videoRead, hnone, h0]

/-- Witness for C9: a one-frame video positioned past its end loops back to
its first frame, and an empty video is a fatal error. -/
theorem video_loop_witness :
    (emptyTestVideo.frames = [] →
      read_frame 2 2 false emptyTestVideo = .error "cannot read frame") ∧
    read_frame 2 2 false loopTestVideo =
      (resize_image loopTestImg 2 2 false).map
        (fun i => (i, ({ frames := loopTestVideo.frames, pos := 1 } : Video))) :=
  ⟨(video_loop emptyTestVideo 2 2 false (by decide)).1,
   (video_loop loopTestVideo 2 2 false (by decide)).2 loopTestImg [] rfl⟩

/-- The value `exp 5` is large: at least 99 (indeed ≈ 148.4). -/
lemma exp_five_gt : (99 : ℝ) < Real.exp 5 := by
  have h1 : (2.7182818283 : ℝ) < Real.exp 1 := Real.exp_one_gt_d9
  have h27 : (2.7 : ℝ) < Real.exp 1 := by linarith
  have h5 : Real.exp 5 = Real.exp 1 ^ 5 := by
    rw [← Real.exp_nat_mul]
    norm_num
  have hpow : (2.7 : ℝ) ^ 5 < Real.exp 1 ^ 5 :=
    pow_lt_pow_left₀ h27 (by norm_num) (by norm_num)
  have : (99 : ℝ) < (2.7 : ℝ) ^ 5 := by norm_num
  linarith [h5 ▸ hpow]

/-- The sigmoid at mask value 0 unfolds to `1 / (1 + exp 5)`. -/
lemma sigmoid_zero_eq : sigmoid 0 = 1 / (1 + Real.exp 5) := by
  simp [sigmoid]

/-- The sigmoid alpha is non-negative everywhere. -/
lemma sigmoid_nonneg (x : ℝ) : 0 ≤ sigmoid x := by
  unfold sigmoid
  positivity

/-- C1: the background-replacement pass blends each channel pointwise as
`out = live·sig(mask) + background·(1 − sig(mask))` with
`sig(m) = 1/(1+exp(5−10m))`; the alpha at mask 0 is below 1/100, so an
all-black live frame over an all-white (255) background with an all-zero mask
composites to within `255·sig(0)` (< 2.55) of all-white at every pixel and
channel. -/
theorem background_replacement :
    (∀ live bg m : ℝ, composeChannel live bg m =
      live * (1 / (1 + Real.exp (5 - 10 * m))) +
      bg * (1 - 1 / (1 + Real.exp (5 - 10 * m)))) ∧
    sigmoid 0 < 1 / 100 ∧
    (∀ y x c : ℕ,
      |composeFrame (fun _ _ _ => 0) (fun _ _ _ => 255) (fun _ _ => 0) y x c
        - 255| ≤ 255 * sigmoid 0) := by
  have hsig : ∀ m : ℝ, sigmoid m = 1 / (1 + Real.exp (5 - 10 * m)) := by
    intro m
    unfold sigmoid
    ring_nf
  refine ⟨fun live bg m => ?_, ?_, fun y x c => ?_⟩
  · rw [composeChannel, hsig]
  · rw [sigmoid_zero_eq]
    rw [div_lt_div_iff₀ (by positivity) (by norm_num)]
    have := exp_five_gt
    linarith
  · have h0 : 0 ≤ sigmoid 0 := sigmoid_nonneg 0
    simp only [composeFrame, composeChannel]
    have he : (0 : ℝ) * sigmoid 0 + 255 * (1 - sigmoid 0) - 255 =
        -(255 * sigmoid 0) := by ring
    rw [he, abs_neg, abs_of_nonneg (by positivity)]

/-- C6 counterexample to "not exactly 0.5": at mask value 0.5 the exponent is
`5 − 10·0.5 = 0`, so the alpha is `1/(1+exp 0) = 1/2` — exactly one half. -/
theorem sigmoid_half_exact : sigmoid (1/2) = 1/2 := by
  have harg : (5 : ℝ) + (-10) * (1/2) = 0 := by norm_num
  unfold sigmoid
  rw [harg, Real.exp_zero]
  norm_num

/-- C6 (amended): at mask value 0.5 the blending alpha is exactly 0.5, and
this is the sigmoid's midpoint: the curve is symmetric about it,
`sig(m) + sig(1−m) = 1` for every mask value. -/
theorem sigmoid_midpoint :
    sigmoid (1/2) = 1/2 ∧ ∀ m : ℝ, sigmoid m + sigmoid (1 - m) = 1 := by
  constructor
  · have harg : (5 : ℝ) + (-10) * (1/2) = 0 := by norm_num
    unfold sigmoid
    rw [harg, Real.exp_zero]
    norm_num
  · intro m
    have harg : (5 : ℝ) + (-10) * (1 - m) = -(5 + (-10) * m) := by ring
    unfold sigmoid
    rw [harg, Real.exp_neg]
    have ht : 0 < Real.exp (5 + (-10) * m) := Real.exp_pos _
    field_simp
    ring

end FakeCamSpec
